import Mathlib

/-!
A shallow embedding of the MaxSAT metaheuristic solver of this repository
(`MaxSATSolver.cpp`) together with proofs of its specified properties.

Modelling conventions:
* C++ `std::vector` state is modelled by Lean lists with explicit state
  passing; `v[i]` reads become `List.getD` and writes become `List.set`.
* The externally supplied Mersenne-Twister generator is modelled by an
  arbitrary stream of draws (`Nat → Nat`): each `uniform_int_distribution`
  call over `0..w-1` consumes one draw and reduces it modulo `w`.
* `double` parameters (`alpha`, temperatures, the RCL threshold) are
  modelled as exact rationals; the one genuinely real-valued quantity,
  the Metropolis acceptance probability `exp(-delta/T)`, is modelled over
  the reals (`Real.exp`), and the Boolean outcome of each acceptance test
  is threaded through the annealing loop as a stream of decisions.
* Loops whose C++ termination argument is a strictly decreasing integer
  cost (hill climbing) run on an explicit fuel that provably suffices;
  the annealing cooling loop is likewise indexed by the number of cooling
  steps actually executed, and theorems quantify over that number.
-/

namespace MaxSAT

/-- Three-valued truth (enum `TBool` of the source). -/
inductive TBool
  | Unknown
  | False
  | True
  deriving DecidableEq, Repr

/-- Per-variable literal occurrence counters (struct `Conteo`). -/
structure Conteo where
  pos : Int
  neg : Int
  deriving DecidableEq, Repr

/-- One literal of `Clausula::esSatisfecha`: a signed variable reference `v`
evaluates to true when `v > 0` and the variable is `True`, or `v < 0` and the
variable is `False` (an `Unknown` variable never satisfies a literal). -/
def litSat (vars : List TBool) (v : Int) : Bool :=
  let val := vars.getD (v.natAbs - 1) TBool.Unknown
  (decide (0 < v) && decide (val = TBool.True)) ||
    (decide (v < 0) && decide (val = TBool.False))

/-- `Clausula::esSatisfecha`: a clause is satisfied when some literal
evaluates to true under the global assignment. -/
def esSatisfecha (c : List Int) (vars : List TBool) : Bool :=
  c.any (litSat vars)

/-- `Formula::calcularCosto`: the number of clauses not satisfied by the
assignment. -/
def calcularCosto (clausulas : List (List Int)) (vars : List TBool) : Nat :=
  clausulas.countP (fun c => !esSatisfecha c vars)

/-- The flip `vars[idx] = (vars[idx] == TBool::True) ? TBool::False :
TBool::True` used by every 1-flip move (note it sends `Unknown` to `True`). -/
def flipv (x : TBool) : TBool :=
  if x = TBool.True then TBool.False else TBool.True

/-- In-place single-position flip of an assignment vector. -/
def flipIdx (i : Nat) (vars : List TBool) : List TBool :=
  vars.set i (flipv (vars.getD i TBool.Unknown))

/-- Whether an assignment is fully determined (no `Unknown` entry). -/
def noUnknown (vars : List TBool) : Bool :=
  vars.all (fun x => decide (x ≠ TBool.Unknown))

/-! ### Hill-climbing local search (`Formula::busquedaLocal`) -/

/-- Insertion of a value into a sorted list (model of the `sort` step). -/
def insertSorted (x : Nat) : List Nat → List Nat
  | [] => [x]
  | y :: ys => if x ≤ y then x :: y :: ys else y :: insertSorted x ys

/-- Insertion sort (model of `std::sort` on the candidate list). -/
def sortNat (l : List Nat) : List Nat :=
  l.foldr insertSorted []

/-- Tail of `std::unique`: drop elements equal to their predecessor. -/
def dedupGo (prev : Nat) : List Nat → List Nat
  | [] => []
  | y :: ys => if prev = y then dedupGo prev ys else y :: dedupGo y ys

/-- `std::unique` on a list: remove adjacent duplicates. -/
def dedupAdj : List Nat → List Nat
  | [] => []
  | x :: xs => x :: dedupGo x xs

/-- The candidate set of one local-search round: the (sorted, deduplicated)
0-based indices of all variables occurring in currently unsatisfied
clauses. -/
def candidatos (cls : List (List Int)) (vars : List TBool) : List Nat :=
  dedupAdj (sortNat
    (((cls.filter (fun c => !esSatisfecha c vars)).map
        (fun c => c.map (fun v => v.natAbs - 1))).flatten))

/-- The inner candidate scan of `busquedaLocal`: flip each candidate in
turn; on a strict cost improvement keep the flip and stop the round
(first improvement); otherwise flip the position again ("revert") and
continue.  Returns the resulting vector, the running cost, and the
`mejora` flag. -/
def scanCandidatos (cls : List (List Int)) :
    List Nat → List TBool → Nat → (List TBool × Nat × Bool)
  | [], vars, costo => (vars, costo, false)
  | idx :: rest, vars, costo =>
    let vars1 := flipIdx idx vars
    let nuevo := calcularCosto cls vars1
    if nuevo < costo then (vars1, nuevo, true)
    else scanCandidatos cls rest (flipIdx idx vars1) costo

/-- The `while (mejora)` loop of `busquedaLocal`, on fuel.  Each improving
round strictly decreases the running cost, so `initial cost + 1` rounds
always suffice (proved below); the fuel never runs out on the calls made
by `busquedaLocal`. -/
def blLoop (cls : List (List Int)) : Nat → List TBool → Nat → List TBool
  | 0, vars, _ => vars
  | fuel + 1, vars, costo =>
    let r := scanCandidatos cls (candidatos cls vars) vars costo
    if r.2.2 then blLoop cls fuel r.1 r.2.1 else r.1

/-- `Formula::busquedaLocal`: first-improvement 1-flip hill climbing over
the unsatisfied-clause candidate set. -/
def busquedaLocal (cls : List (List Int)) (vars : List TBool) : List TBool :=
  blLoop cls (calcularCosto cls vars + 1) vars (calcularCosto cls vars)

/-! ### Iterated local search (`Formula::busquedaLocalIterada`) -/

/-- The perturbation size `max(1, (int)(vars.size() * 0.05))` of
`busquedaLocalIterada` (the `(int)` cast truncates, which on the
nonnegative product is the floor). -/
def kPerturb (n : Nat) : Nat :=
  max 1 (Int.toNat ⌊(n : ℚ) * (5 / 100)⌋)

/-- The perturbation loop of `busquedaLocalIterada`: apply `k` single-flip
moves at stream-chosen indices (each `dis(gen)` call consumes one draw and
reduces it modulo `n`). -/
def perturbar (n : Nat) (gen : Nat → Nat) : Nat → Nat → List TBool → List TBool
  | _, 0, sol => sol
  | t, k + 1, sol => perturbar n gen (t + 1) k (flipIdx (gen t % n) sol)

/-- The iteration loop of `busquedaLocalIterada`, carrying the best-known
solution and its cost: copy the best, perturb, hill climb, and adopt the
result only on strict improvement. -/
def ilsLoop (cls : List (List Int)) (n : Nat) (gen : Nat → Nat) (kf : Nat) :
    Nat → Nat → (List TBool × Nat) → (List TBool × Nat)
  | 0, _, best => best
  | i + 1, t, best =>
    let actual := perturbar n gen t kf best.1
    let actual2 := busquedaLocal cls actual
    let costoActual := calcularCosto cls actual2
    if costoActual < best.2 then ilsLoop cls n gen kf i (t + kf) (actual2, costoActual)
    else ilsLoop cls n gen kf i (t + kf) best

/-- `Formula::busquedaLocalIterada` (ILS). -/
def busquedaLocalIterada (cls : List (List Int)) (vars : List TBool)
    (maxIteraciones : Nat) (gen : Nat → Nat) : List TBool :=
  (ilsLoop cls vars.length gen (kPerturb vars.length) maxIteraciones 0
    (vars, calcularCosto cls vars)).1

/-! ### Tabu search (`Formula::busquedaTabu`) -/

/-- The selection guard `!esTabu || aspira` of the tabu neighbourhood scan:
a variable may be selected when it is not currently tabu, or when the
flipped cost beats the best-known global cost (aspiration). -/
def tabuEligible (iter : Nat) (tu nuevoCosto mejorCostoGlobal : Int) : Bool :=
  !(decide ((iter : Int) < tu)) || decide (nuevoCosto < mejorCostoGlobal)

/-- The 1-flip neighbourhood scan of `busquedaTabu` over the index list:
each index is flipped, evaluated, and flipped again; an eligible move with
a strictly smaller delta replaces the incumbent `(mejorDelta, mejorVarIdx)`
pair (initially `(10^9, none)`, the source's `1e9` and `-1`). -/
def tabuScan (cls : List (List Int)) (mejorCostoGlobal costoActual : Int)
    (tabuUntil : List Int) (iter : Nat) :
    List Nat → List TBool → Int → Option Nat → (List TBool × Int × Option Nat)
  | [], vars, mejorDelta, mejorIdx => (vars, mejorDelta, mejorIdx)
  | i :: rest, vars, mejorDelta, mejorIdx =>
    let vars1 := flipIdx i vars
    let nuevoCosto : Int := calcularCosto cls vars1
    let delta := nuevoCosto - costoActual
    let acc :=
      if tabuEligible iter (tabuUntil.getD i 0) nuevoCosto mejorCostoGlobal &&
          decide (delta < mejorDelta) then (delta, some i)
      else (mejorDelta, mejorIdx)
    tabuScan cls mejorCostoGlobal costoActual tabuUntil iter rest
      (flipIdx i vars1) acc.1 acc.2

/-- The mutable state of `busquedaTabu`. -/
structure TabuState where
  vars : List TBool
  tabuUntil : List Int
  mejorSol : List TBool
  mejorCosto : Int
  costo : Int
  deriving DecidableEq, Repr

/-- One iteration of `busquedaTabu`: scan the whole 1-flip neighbourhood,
apply the best eligible move (if any), extend its tabu tenure by
`iter + tenureBase + disTenure(gen)` (the draw reduced modulo 6), update the
running cost by the chosen delta, and record a new global best when the
running cost improves on it. -/
def tabuIter (cls : List (List Int)) (n : Nat) (tenureBase : Int)
    (tgen : Nat → Nat) (iter : Nat) (st : TabuState) : TabuState :=
  let r := tabuScan cls st.mejorCosto st.costo st.tabuUntil iter
    (List.range n) st.vars (10 ^ 9) none
  match r.2.2 with
  | none => { st with vars := r.1 }
  | some m =>
    let vars2 := flipIdx m r.1
    let costo2 := st.costo + r.2.1
    let tabu2 := st.tabuUntil.set m ((iter : Int) + tenureBase + (tgen iter % 6 : Nat))
    if costo2 < st.mejorCosto then ⟨vars2, tabu2, vars2, costo2, costo2⟩
    else ⟨vars2, tabu2, st.mejorSol, st.mejorCosto, costo2⟩

/-- The iteration loop of `busquedaTabu` (`iter` counts from 1). -/
def tabuLoop (cls : List (List Int)) (n : Nat) (tenureBase : Int)
    (tgen : Nat → Nat) : Nat → Nat → TabuState → TabuState
  | 0, _, st => st
  | k + 1, iter, st =>
    tabuLoop cls n tenureBase tgen k (iter + 1) (tabuIter cls n tenureBase tgen iter st)

/-- The initial tabu state: no variable tabu, the input assignment as the
incumbent and global best, and its cost as both cost fields. -/
def tabuInicial (cls : List (List Int)) (vars : List TBool) : TabuState :=
  ⟨vars, List.replicate vars.length 0, vars,
    (calcularCosto cls vars : Int), (calcularCosto cls vars : Int)⟩

/-- `Formula::busquedaTabu`: returns the best solution observed across the
whole run. -/
def busquedaTabu (cls : List (List Int)) (vars : List TBool)
    (maxIteraciones : Nat) (tenureBase : Int) (tgen : Nat → Nat) : List TBool :=
  (tabuLoop cls vars.length tenureBase tgen maxIteraciones 1
    (tabuInicial cls vars)).mejorSol

/-! ### Simulated annealing (`Formula::recocidoSimulado`) -/

/-- The mutable state of `recocidoSimulado`. -/
structure SAState where
  actual : List TBool
  costo : Nat
  mejorCosto : Nat
  mejorSol : List TBool
  deriving DecidableEq, Repr

/-- The Metropolis acceptance test of `recocidoSimulado` (line
`probDist(gen) < exp(-delta / T)`): the uniform draw `u` from `[0,1)` is
compared against the real acceptance probability. -/
def metropolisDec (u : ℝ) (delta : Int) (T : ℝ) : Prop :=
  u < Real.exp (-(delta : ℝ) / T)

/-- One inner iteration of `recocidoSimulado`: flip a stream-chosen
variable; on a strict improvement accept and possibly record a new global
best; otherwise accept exactly when the Metropolis test (whose Boolean
outcome is `dec`) succeeded, and revert the flip when it did not. -/
def saInnerStep (cls : List (List Int)) (n : Nat) (st : SAState)
    (ridx : Nat) (dec : Bool) : SAState :=
  let idx := ridx % n
  let actual1 := flipIdx idx st.actual
  let nuevo := calcularCosto cls actual1
  let delta : Int := (nuevo : Int) - (st.costo : Int)
  if delta < 0 then
    if nuevo < st.mejorCosto then ⟨actual1, nuevo, nuevo, actual1⟩
    else ⟨actual1, nuevo, st.mejorCosto, st.mejorSol⟩
  else if dec then ⟨actual1, nuevo, st.mejorCosto, st.mejorSol⟩
  else ⟨flipIdx idx actual1, st.costo, st.mejorCosto, st.mejorSol⟩

/-- The fixed-length inner loop of one temperature level, threading the
stream position `t`. -/
def saInner (cls : List (List Int)) (n : Nat) (igen : Nat → Nat)
    (dgen : Nat → Bool) : Nat → Nat → SAState → SAState × Nat
  | 0, t, st => (st, t)
  | k + 1, t, st =>
    saInner cls n igen dgen k (t + 1) (saInnerStep cls n st (igen t) (dgen t))

/-- The cooling loop `while (T > T_min)` of `recocidoSimulado`, indexed by
the number of cooling steps executed (`fuel`); with the source's parameters
(`alpha < 1`) the loop executes finitely many steps, and the theorems below
quantify over every such number. -/
def saLoop (cls : List (List Int)) (n : Nat) (igen : Nat → Nat)
    (dgen : Nat → Bool) (iterPorTemp : Nat) (alpha : ℚ) :
    Nat → ℚ → Nat → SAState → SAState
  | 0, _, _, st => st
  | f + 1, T, t, st =>
    if (1 / 100 : ℚ) < T then
      let p := saInner cls n igen dgen iterPorTemp t st
      saLoop cls n igen dgen iterPorTemp alpha f (T * alpha) p.2 p.1
    else st

/-- `Formula::recocidoSimulado`: returns the best solution observed across
the whole cooling schedule. -/
def recocidoSimulado (cls : List (List Int)) (vars : List TBool)
    (igen : Nat → Nat) (dgen : Nat → Bool) (tempInicial alpha : ℚ)
    (iterPorTemp : Nat) (fuel : Nat) : List TBool :=
  (saLoop cls vars.length igen dgen iterPorTemp alpha fuel tempInicial 0
    ⟨vars, calcularCosto cls vars, calcularCosto cls vars, vars⟩).mejorSol

/-! ### GRASP (`Formula::construccionGRASP`, `Formula::busquedaGRASP`) -/

/-- The benefit `max(frecs[j].pos, frecs[j].neg)` of an unresolved
variable in the GRASP construction. -/
def beneficio (f : Conteo) : Int :=
  max f.pos f.neg

/-- One construction step of `construccionGRASP`: gather the unresolved
variables with their benefits, form the restricted candidate list of those
with benefit at least `s_max - alpha * (s_max - s_min)` (`s_min`/`s_max`
initialised to `INT_MAX`/`INT_MIN`), pick a stream-chosen member, assign it
its majority polarity, and sentinel its frequency entry. -/
def graspPaso (alpha : ℚ) (r : Nat) (vars : List TBool) (frecs : List Conteo) :
    List TBool × List Conteo :=
  let n := vars.length
  let cands := (List.range n).filterMap (fun j =>
    if vars.getD j TBool.Unknown = TBool.Unknown then
      some (j, beneficio (frecs.getD j ⟨0, 0⟩))
    else none)
  let s_min := cands.foldl (fun acc c => min acc c.2) (2 ^ 31 - 1)
  let s_max := cands.foldl (fun acc c => max acc c.2) (-(2 ^ 31))
  let umbral : ℚ := (s_max : ℚ) - alpha * ((s_max : ℚ) - (s_min : ℚ))
  let rcl := (cands.filter (fun c => umbral ≤ (c.2 : ℚ))).map (fun c => c.1)
  let idElegido := rcl.getD (r % rcl.length) 0
  let fe := frecs.getD idElegido ⟨0, 0⟩
  let valor := fe.neg ≤ fe.pos
  (vars.set idElegido (if valor then TBool.True else TBool.False),
    frecs.set idElegido ⟨-99999, -99999⟩)

/-- The construction loop of `construccionGRASP`: `n` steps, one variable
assigned per step, threading the stream position. -/
def construccionGRASP (alpha : ℚ) (rgen : Nat → Nat) :
    Nat → Nat → List TBool → List Conteo → List TBool
  | 0, _, vars, _ => vars
  | k + 1, t, vars, frecs =>
    let p := graspPaso alpha (rgen t) vars frecs
    construccionGRASP alpha rgen k (t + 1) p.1 p.2

/-- The trial loop of `busquedaGRASP`, carrying the best cost (initially
`INT_MAX`) and best solution (initially the empty vector): each trial
constructs a fresh assignment from all-`Unknown`, hill climbs it, and keeps
it on strict improvement. -/
def graspLoop (cls : List (List Int)) (nvars : Nat) (alpha : ℚ)
    (rgen : Nat → Nat) (frecs : List Conteo) :
    Nat → Nat → Int → List TBool → List TBool
  | 0, _, _, mejorSol => mejorSol
  | k + 1, t, mejorCosto, mejorSol =>
    let actual0 := List.replicate nvars TBool.Unknown
    let actual1 := construccionGRASP alpha rgen nvars t actual0 frecs
    let actual2 := busquedaLocal cls actual1
    let costoFinal : Int := calcularCosto cls actual2
    if costoFinal < mejorCosto then
      graspLoop cls nvars alpha rgen frecs k (t + nvars) costoFinal actual2
    else graspLoop cls nvars alpha rgen frecs k (t + nvars) mejorCosto mejorSol

/-- `Formula::busquedaGRASP`. -/
def busquedaGRASP (cls : List (List Int)) (vars : List TBool)
    (maxIteraciones : Nat) (alpha : ℚ) (rgen : Nat → Nat)
    (frecsOriginales : List Conteo) : List TBool :=
  graspLoop cls vars.length alpha rgen frecsOriginales maxIteraciones 0
    (2 ^ 31 - 1) []

/-! ### Constructive heuristic (`Formula::solverConstructivo`)

The constructive phase is the one place where the per-clause cached
satisfaction status (`Clausula::satisfaccion`) is consulted, so clauses are
modelled here with their cache. -/

/-- A clause with its cached tri-state satisfaction status (class
`Clausula`). -/
structure Clausula where
  lits : List Int
  satisfaccion : TBool
  deriving DecidableEq, Repr

/-- `Clausula::actualizarFrecuencias`: decrement, for every literal of the
clause, the polarity-matching frequency counter of its variable. -/
def actualizarFrecuencias (lits : List Int) (frecs : List Conteo) : List Conteo :=
  lits.foldl (fun fs v =>
    if 0 < v then
      fs.set (v.natAbs - 1)
        (let c := fs.getD (v.natAbs - 1) ⟨0, 0⟩; ⟨c.pos - 1, c.neg⟩)
    else
      fs.set (v.natAbs - 1)
        (let c := fs.getD (v.natAbs - 1) ⟨0, 0⟩; ⟨c.pos, c.neg - 1⟩)) frecs

/-- `Clausula::setSatisfaccion`: recompute the cached status against the
global assignment (satisfied by some literal / hopeless / still open), and
on resolution (satisfied or falsified) decrement the clause's frequency
contributions. -/
def setSatisfaccion (c : Clausula) (varsG : List TBool) (frecs : List Conteo) :
    Clausula × List Conteo :=
  if c.lits.any (litSat varsG) then
    (⟨c.lits, TBool.True⟩, actualizarFrecuencias c.lits frecs)
  else if c.lits.any
      (fun v => varsG.getD (v.natAbs - 1) TBool.Unknown = TBool.Unknown) then
    (⟨c.lits, TBool.Unknown⟩, frecs)
  else
    (⟨c.lits, TBool.False⟩, actualizarFrecuencias c.lits frecs)

/-- `Clausula::aparece`: whether the 0-based variable index occurs in the
clause. -/
def aparece (c : Clausula) (varIdx : Nat) : Bool :=
  c.lits.any (fun v => decide (v.natAbs = varIdx + 1))

/-- `std::max_element` on the frequency table with comparison by total
occurrence count: the first index attaining the maximum of `pos + neg`. -/
def maxElemGo (bi : Nat) (bv : Int) (i : Nat) : List Conteo → Nat
  | [] => bi
  | c :: rest =>
    if bv < c.pos + c.neg then maxElemGo i (c.pos + c.neg) (i + 1) rest
    else maxElemGo bi bv (i + 1) rest

/-- The index of the first maximal frequency entry (`moda`). -/
def maxElementIdx : List Conteo → Nat
  | [] => 0
  | c :: rest => maxElemGo 0 (c.pos + c.neg) 1 rest

/-- The clause-update pass of `solverConstructivo`: for every still-open
clause containing the just-assigned variable, recompute its cached status,
threading the frequency table. -/
def updateClausulas (varsG : List TBool) (m : Nat) :
    List Clausula → List Conteo → List Clausula × List Conteo
  | [], frecs => ([], frecs)
  | c :: rest, frecs =>
    if c.satisfaccion = TBool.Unknown && aparece c m then
      let p := setSatisfaccion c varsG frecs
      let q := updateClausulas varsG m rest p.2
      (p.1 :: q.1, q.2)
    else
      let q := updateClausulas varsG m rest frecs
      (c :: q.1, q.2)

/-- The greedy selection loop of `solverConstructivo`, running on the count
of still-pending variables: pick the variable with the highest remaining
total occurrence count (stopping when none has a positive count), assign it
its majority polarity, sentinel its entry with `-9999`, and update the
still-open clauses. -/
def solverConstructivoLoop (pend : Nat) (vars : List TBool)
    (frecs : List Conteo) (cls : List Clausula) :
    List TBool × List Conteo × List Clausula :=
  match pend with
  | 0 => (vars, frecs, cls)
  | pend' + 1 =>
    let m := maxElementIdx frecs
    let moda := frecs.getD m ⟨0, 0⟩
    if moda.pos ≤ 0 ∧ moda.neg ≤ 0 then (vars, frecs, cls)
    else
      let valor := moda.neg ≤ moda.pos
      let vars' := vars.set m (if valor then TBool.True else TBool.False)
      let frecs' := frecs.set m ⟨-9999, -9999⟩
      let q := updateClausulas vars' m cls frecs'
      solverConstructivoLoop pend' vars' q.2 q.1

/-- `Formula::solverConstructivo`: greedy frequency-driven construction,
then force every still-`Unknown` variable to `False`.  Returns the final
assignment and the clause list with its updated caches. -/
def solverConstructivo (cls : List Clausula) (vars : List TBool)
    (frecs : List Conteo) : List TBool × List Clausula :=
  let r := solverConstructivoLoop vars.length vars frecs cls
  (r.1.map (fun x => if x = TBool.Unknown then TBool.False else x), r.2.2)

/-! ### The distribution parameters built for degenerate sizes

`busquedaLocalIterada` constructs `uniform_int_distribution<> dis(0,
vars.size() - 1)` and `recocidoSimulado` constructs
`uniform_int_distribution<> varDist(0, n - 1)` before either checks the
variable count.  The following definitions model the `int` values those
constructor arguments take: `vars.size() - 1` wraps around in the unsigned
64-bit `size_t` and is then converted (modulo `2^32`, two's complement) to
`int`, while in the annealing routine `n` is already an `int` and `n - 1`
is plain signed arithmetic. -/

/-- Two's-complement reinterpretation of a natural number as a 32-bit
signed integer (the C++ `size_t` → `int` conversion). -/
def toInt32 (x : Nat) : Int :=
  let r : Nat := x % 2 ^ 32
  if r < 2 ^ 31 then (r : Int) else (r : Int) - 2 ^ 32

/-- The upper constructor argument of `dis(0, vars.size() - 1)` in
`busquedaLocalIterada`, as the `int` the distribution receives. -/
def ilsDistUpper (n : Nat) : Int :=
  toInt32 ((n + 2 ^ 64 - 1) % 2 ^ 64)

/-- The upper constructor argument of `varDist(0, n - 1)` in
`recocidoSimulado`. -/
def saDistUpper (n : Int) : Int :=
  n - 1

/-- Validity precondition of `std::uniform_int_distribution(a, b)`:
`a ≤ b`. -/
def distValid (a b : Int) : Prop :=
  a ≤ b

/-! ### Miscellaneous helpers used by the statements -/

/-- The number of positions at which two assignment vectors differ. -/
def diffCount : List TBool → List TBool → Nat
  | [], _ => 0
  | _ :: _, [] => 0
  | x :: xs, y :: ys => (if x = y then 0 else 1) + diffCount xs ys

/-! ## Helper lemmas about the cost function -/

lemma esSatisfecha_perm {c c' : List Int} (vars : List TBool) (h : c.Perm c') :
    esSatisfecha c vars = esSatisfecha c' vars := by
  unfold esSatisfecha
  apply Bool.eq_iff_iff.mpr
  simp only [List.any_eq_true]
  constructor
  · rintro ⟨x, hx, hp⟩
    exact ⟨x, h.mem_iff.mp hx, hp⟩
  · rintro ⟨x, hx, hp⟩
    exact ⟨x, h.mem_iff.mpr hx, hp⟩

lemma calcularCosto_forall₂_perm {cls cls' : List (List Int)} (vars : List TBool)
    (h : List.Forall₂ List.Perm cls cls') :
    calcularCosto cls vars = calcularCosto cls' vars := by
  induction h with
  | nil => rfl
  | cons hcc _ ih =>
    unfold calcularCosto at *
    simp only [List.countP_cons, ih, esSatisfecha_perm vars hcc]

/-! ## C2 -/

/-- C2: for every assignment vector the cost lies between `0` and the
number of clauses, and it is unchanged by permuting the clauses of the
formula (`h₂`) or the literals inside the individual clauses (`h₃`). -/
theorem C2_cost_bounds_perm_invariant (cls cls₂ cls₃ : List (List Int))
    (vars : List TBool) (h₂ : cls.Perm cls₂)
    (h₃ : List.Forall₂ List.Perm cls cls₃) :
    0 ≤ calcularCosto cls vars ∧ calcularCosto cls vars ≤ cls.length ∧
      calcularCosto cls₂ vars = calcularCosto cls vars ∧
      calcularCosto cls₃ vars = calcularCosto cls vars := by
  refine ⟨Nat.zero_le _, ?_, ?_, ?_⟩
  · unfold calcularCosto
    exact List.countP_le_length _
  · exact (h₂.countP_eq _).symm
  · exact (calcularCosto_forall₂_perm vars h₃).symm

/-- Witness for C2 at a concrete formula, clause permutation, literal
permutation and assignment. -/
theorem C2_witness :
    List.Perm [[1, 2], [-1]] [[-1], [1, 2]] ∧
      List.Forall₂ List.Perm [[1, 2], [-1]] [[2, 1], [-1]] ∧
      (0 ≤ calcularCosto [[1, 2], [-1]] [TBool.True, TBool.False] ∧
        calcularCosto [[1, 2], [-1]] [TBool.True, TBool.False] ≤
          List.length [[1, 2], [-1]] ∧
        calcularCosto [[-1], [1, 2]] [TBool.True, TBool.False] =
          calcularCosto [[1, 2], [-1]] [TBool.True, TBool.False] ∧
        calcularCosto [[2, 1], [-1]] [TBool.True, TBool.False] =
          calcularCosto [[1, 2], [-1]] [TBool.True, TBool.False]) :=
  ⟨by decide,
    List.Forall₂.cons (by decide) (List.Forall₂.cons (by decide) List.Forall₂.nil),
    C2_cost_bounds_perm_invariant _ _ _ _ (by decide)
      (List.Forall₂.cons (by decide) (List.Forall₂.cons (by decide) List.Forall₂.nil))⟩

/-! ## C9 -/

/-- C9: a clause with no literals is unsatisfied under every assignment,
and wherever it occurs in the formula it contributes exactly one unit of
cost. -/
theorem C9_empty_clause_unsat (pre post : List (List Int)) (vars : List TBool) :
    esSatisfecha [] vars = false ∧
      calcularCosto (pre ++ [] :: post) vars = calcularCosto (pre ++ post) vars + 1 := by
  refine ⟨rfl, ?_⟩
  unfold calcularCosto
  simp [List.countP_append, List.countP_cons, esSatisfecha]
  omega

/-! ## C3 -/

/-- C3: on termination of the constructive solver every variable is
`True` or `False` — the assignment contains no `Unknown` entry (the final
pass forces any leftover `Unknown` to `False`). -/
theorem C3_constructivo_total (cls : List Clausula) (vars : List TBool)
    (frecs : List Conteo) (h : 1 ≤ vars.length) :
    TBool.Unknown ∉ (solverConstructivo cls vars frecs).1 := by
  unfold solverConstructivo
  intro hmem
  simp only [List.mem_map] at hmem
  obtain ⟨y, _, hy⟩ := hmem
  cases y <;> simp at hy

/-- Witness for C3 at a concrete one-variable instance. -/
theorem C3_witness :
    1 ≤ List.length [TBool.Unknown] ∧
      TBool.Unknown ∉
        (solverConstructivo [⟨[1], TBool.Unknown⟩] [TBool.Unknown] [⟨1, 0⟩]).1 :=
  ⟨by decide, C3_constructivo_total _ _ _ (by decide)⟩

/-! ## C7 -/

/-- C7: in the tabu neighbourhood scan, a variable whose flipped cost beats
the best-known global cost passes the selection guard even while its tabu
expiry marks it tabu for the current iteration (aspiration overrides the
tabu restriction). -/
theorem C7_aspiration_overrides_tabu (iter : Nat) (tu nc mg : Int)
    (htabu : (iter : Int) < tu) (hasp : nc < mg) :
    tabuEligible iter tu nc mg = true := by
  unfold tabuEligible
  simp [hasp]

/-- Witness for C7: iteration 0, tabu until 5, flipped cost 0 beating the
best-known cost 1. -/
theorem C7_witness :
    ((0 : Nat) : Int) < 5 ∧ (0 : Int) < 1 ∧ tabuEligible 0 5 0 1 = true :=
  ⟨by decide, by decide, C7_aspiration_overrides_tabu 0 5 0 1 (by decide) (by decide)⟩

/-! ## C8 -/

/-- C8 (code bug): with zero variables, `busquedaLocalIterada` and
`recocidoSimulado` build `uniform_int_distribution` objects whose upper
bound is `-1`, below the lower bound `0`, so contrary to the claim the
degenerate zero-variable input reaches an invalidly parameterised random
distribution (undefined behaviour) before any iteration runs. -/
theorem C8_zero_vars_invalid_distribution :
    ilsDistUpper 0 = -1 ∧ saDistUpper 0 = -1 ∧
      ¬ distValid 0 (ilsDistUpper 0) ∧ ¬ distValid 0 (saDistUpper 0) := by
  unfold distValid
  decide

/-! ## C6 -/

/-- C6: at `delta = 0` the Metropolis probability is `exp(-0/T) = 1`, so
every uniform draw `u` from `[0,1)` passes the acceptance test
`probDist(gen) < exp(-delta/T)`; and an inner annealing step whose
acceptance test succeeded keeps the flipped assignment — the flip is never
reverted in that case. -/
theorem C6_delta_zero_always_accepted (u T : ℝ) (cls : List (List Int))
    (n : Nat) (st : SAState) (ridx : Nat) (hu0 : 0 ≤ u) (hu1 : u < 1) :
    metropolisDec u 0 T ∧
      (saInnerStep cls n st ridx true).actual = flipIdx (ridx % n) st.actual := by
  constructor
  · unfold metropolisDec
    simpa using hu1
  · unfold saInnerStep
    dsimp only
    split_ifs with h1 h2 h3
    · rfl
    · rfl
    · rfl
    · exact absurd rfl h3

/-- Witness for C6 at the draw `u = 0`, temperature `1`, and a concrete
annealing state. -/
theorem C6_witness :
    (0 : ℝ) ≤ 0 ∧ (0 : ℝ) < 1 ∧
      (metropolisDec 0 0 1 ∧
        (saInnerStep [[1]] 1 ⟨[TBool.False], 1, 1, [TBool.False]⟩ 0 true).actual =
          flipIdx (0 % 1) [TBool.False]) :=
  ⟨le_refl 0, by norm_num,
    C6_delta_zero_always_accepted 0 1 [[1]] 1 ⟨[TBool.False], 1, 1, [TBool.False]⟩ 0
      (le_refl 0) (by norm_num)⟩

/-! ## C4 -/

lemma diffCount_self (a : List TBool) : diffCount a a = 0 := by
  induction a with
  | nil => rfl
  | cons x xs ih => simp [diffCount, ih]

lemma diffCount_set_le (a : List TBool) :
    ∀ (b : List TBool) (i : Nat) (y : TBool),
      diffCount a (b.set i y) ≤ diffCount a b + 1 := by
  induction a with
  | nil => intro b i y; simp [diffCount]
  | cons x xs ih =>
    intro b i y
    cases b with
    | nil => simp [diffCount]
    | cons z zs =>
      cases i with
      | zero =>
        simp only [List.set, diffCount]
        have h1 : (if x = y then 0 else 1) ≤ 1 := by split <;> omega
        have h2 : (0 : Nat) ≤ if x = z then 0 else 1 := by omega
        omega
      | succ i =>
        simp only [List.set, diffCount]
        have := ih zs i y
        omega

lemma diffCount_perturbar (n : Nat) (gen : Nat → Nat) :
    ∀ (k t : Nat) (a b : List TBool),
      diffCount a (perturbar n gen t k b) ≤ diffCount a b + k := by
  intro k
  induction k with
  | zero => intro t a b; simp [perturbar]
  | succ k ih =>
    intro t a b
    calc diffCount a (perturbar n gen (t + 1) k (flipIdx (gen t % n) b))
        ≤ diffCount a (flipIdx (gen t % n) b) + k := ih (t + 1) a _
      _ ≤ diffCount a b + 1 + k := by
          have := diffCount_set_le a b (gen t % n)
            (flipv (b.getD (gen t % n) TBool.Unknown))
          unfold flipIdx
          omega
      _ = diffCount a b + (k + 1) := by omega

/-- C4 counterexample: with 30 variables the perturbation of
`busquedaLocalIterada` flips `max(1, trunc(30 * 0.05)) = 1` position — not
the `max(1, round(30 * 0.05)) = 2` positions the claim states. -/
theorem C4_round_cex :
    diffCount (List.replicate 30 TBool.False)
        (perturbar 30 (fun _ => 0) 0 (kPerturb 30) (List.replicate 30 TBool.False)) ≠
      Int.toNat (max 1 (round ((30 : ℚ) * (5 / 100)))) := by
  have h : round ((30 : ℚ) * (5 / 100)) = 2 := by norm_num [round_eq, Int.floor_eq_iff]
  have hk : kPerturb 30 = 1 := by
    unfold kPerturb
    norm_num [Int.floor_eq_iff]
  rw [h, hk]
  decide

/-- C4 (amended): each ILS round applies exactly
`max(1, trunc(0.05 * variableCount))` single-variable flip moves at
randomly chosen positions; the positions are drawn with replacement, so
the number of positions that actually change is at most that many. -/
theorem C4_amended_perturbation_bound (n : Nat) (gen : Nat → Nat) (t : Nat)
    (sol : List TBool) :
    diffCount sol (perturbar n gen t (kPerturb n) sol) ≤
      max 1 (Int.toNat ⌊(n : ℚ) * (5 / 100)⌋) := by
  have h := diffCount_perturbar n gen (kPerturb n) t sol sol
  rw [diffCount_self] at h
  simpa [kPerturb] using h

/-! ## Flips on fully determined assignments

The C++ "revert" of an exploratory move is a second flip of the same
position.  On a `True`/`False` entry this restores the entry, but on an
`Unknown` entry the two flips produce `True` and then `False`, so a
rejected exploratory move mutates an `Unknown` entry to `False`.  These
lemmas isolate the fully determined case where the revert is exact. -/

lemma flipv_ne_unknown (x : TBool) : flipv x ≠ TBool.Unknown := by
  unfold flipv
  split <;> simp

lemma flipv_flipv (x : TBool) (h : x ≠ TBool.Unknown) : flipv (flipv x) = x := by
  cases x with
  | Unknown => exact absurd rfl h
  | False => rfl
  | True => rfl

lemma getD_set_self (l : List TBool) :
    ∀ (i : Nat) (y : TBool), i < l.length →
      (l.set i y).getD i TBool.Unknown = y := by
  induction l with
  | nil => intro i y h; simp at h
  | cons a l ih =>
    intro i y h
    cases i with
    | zero => rfl
    | succ i => exact ih i y (by simpa using h)

lemma set_getD_self (l : List TBool) :
    ∀ i : Nat, i < l.length → l.set i (l.getD i TBool.Unknown) = l := by
  induction l with
  | nil => intro i h; simp at h
  | cons a l ih =>
    intro i h
    cases i with
    | zero => rfl
    | succ i =>
      show a :: l.set i (l.getD i TBool.Unknown) = a :: l
      rw [ih i (by simpa using h)]

lemma getD_mem (l : List TBool) :
    ∀ i : Nat, i < l.length → l.getD i TBool.Unknown ∈ l := by
  induction l with
  | nil => intro i h; simp at h
  | cons a l ih =>
    intro i h
    cases i with
    | zero => exact List.mem_cons_self a l
    | succ i => exact List.mem_cons_of_mem a (ih i (by simpa using h))

lemma noUnknown_iff (l : List TBool) :
    noUnknown l = true ↔ ∀ x ∈ l, x ≠ TBool.Unknown := by
  unfold noUnknown
  simp [List.all_eq_true]

lemma noUnknown_set (l : List TBool) (i : Nat) (y : TBool)
    (hy : y ≠ TBool.Unknown) (h : noUnknown l = true) :
    noUnknown (l.set i y) = true := by
  rw [noUnknown_iff] at h ⊢
  intro x hx
  rcases List.mem_or_eq_of_mem_set hx with h1 | h2
  · exact h x h1
  · rw [h2]; exact hy

lemma noUnknown_flipIdx (l : List TBool) (i : Nat) (h : noUnknown l = true) :
    noUnknown (flipIdx i l) = true :=
  noUnknown_set l i _ (flipv_ne_unknown _) h

lemma flipIdx_flipIdx (l : List TBool) (i : Nat) (h : noUnknown l = true) :
    flipIdx i (flipIdx i l) = l := by
  by_cases hi : i < l.length
  · unfold flipIdx
    rw [getD_set_self l i _ hi, List.set_set]
    rw [flipv_flipv _ ((noUnknown_iff l).mp h _ (getD_mem l i hi))]
    exact set_getD_self l i hi
  · have hle := Nat.le_of_not_lt hi
    have h1 : flipIdx i l = l := by
      unfold flipIdx
      exact List.set_eq_of_length_le hle
    rw [h1, h1]

/-! ## C5: behaviour of the candidate scan and the hill-climbing loop -/

lemma scanCandidatos_false (cls : List (List Int)) (vars : List TBool)
    (h : noUnknown vars = true) :
    ∀ (is : List Nat) (costo : Nat),
      (scanCandidatos cls is vars costo).2.2 = false →
      scanCandidatos cls is vars costo = (vars, costo, false) := by
  intro is
  induction is with
  | nil => intro costo _; rfl
  | cons i rest ih =>
    intro costo hfalse
    by_cases hlt : calcularCosto cls (flipIdx i vars) < costo
    · exfalso
      have htrue : (scanCandidatos cls (i :: rest) vars costo).2.2 = true := by
        simp only [scanCandidatos]
        rw [if_pos hlt]
      rw [hfalse] at htrue
      exact Bool.false_ne_true htrue
    · have heq : scanCandidatos cls (i :: rest) vars costo
          = scanCandidatos cls rest vars costo := by
        simp only [scanCandidatos]
        rw [if_neg hlt, flipIdx_flipIdx vars i h]
      rw [heq] at hfalse ⊢
      exact ih costo hfalse

lemma scanCandidatos_true (cls : List (List Int)) :
    ∀ (is : List Nat) (vars : List TBool) (costo : Nat),
      noUnknown vars = true →
      (scanCandidatos cls is vars costo).2.2 = true →
      noUnknown (scanCandidatos cls is vars costo).1 = true ∧
        (scanCandidatos cls is vars costo).2.1 =
          calcularCosto cls (scanCandidatos cls is vars costo).1 ∧
        (scanCandidatos cls is vars costo).2.1 < costo := by
  intro is
  induction is with
  | nil =>
    intro vars costo _ htrue
    exact absurd htrue (by simp [scanCandidatos])
  | cons i rest ih =>
    intro vars costo h htrue
    by_cases hlt : calcularCosto cls (flipIdx i vars) < costo
    · have heq : scanCandidatos cls (i :: rest) vars costo
          = (flipIdx i vars, calcularCosto cls (flipIdx i vars), true) := by
        simp only [scanCandidatos]
        rw [if_pos hlt]
      rw [heq]
      exact ⟨noUnknown_flipIdx vars i h, rfl, hlt⟩
    · have heq : scanCandidatos cls (i :: rest) vars costo
          = scanCandidatos cls rest vars costo := by
        simp only [scanCandidatos]
        rw [if_neg hlt, flipIdx_flipIdx vars i h]
      rw [heq] at htrue ⊢
      exact ih vars costo h htrue

lemma blLoop_succ_true (cls : List (List Int)) (fuel : Nat) (vars : List TBool)
    (costo : Nat)
    (hm : (scanCandidatos cls (candidatos cls vars) vars costo).2.2 = true) :
    blLoop cls (fuel + 1) vars costo =
      blLoop cls fuel (scanCandidatos cls (candidatos cls vars) vars costo).1
        (scanCandidatos cls (candidatos cls vars) vars costo).2.1 := by
  simp only [blLoop]
  rw [hm]
  simp

lemma blLoop_succ_false (cls : List (List Int)) (fuel : Nat) (vars : List TBool)
    (costo : Nat)
    (hm : (scanCandidatos cls (candidatos cls vars) vars costo).2.2 = false) :
    blLoop cls (fuel + 1) vars costo =
      (scanCandidatos cls (candidatos cls vars) vars costo).1 := by
  simp only [blLoop]
  rw [hm]
  simp

/-- On a fully determined assignment, the hill-climbing loop returns a
fully determined fixpoint: the candidate scan at the returned assignment
and its true cost rejects every candidate. -/
lemma blLoop_fix (cls : List (List Int)) :
    ∀ (fuel : Nat) (vars : List TBool) (costo : Nat),
      noUnknown vars = true → costo = calcularCosto cls vars → costo < fuel →
      noUnknown (blLoop cls fuel vars costo) = true ∧
        scanCandidatos cls (candidatos cls (blLoop cls fuel vars costo))
            (blLoop cls fuel vars costo)
            (calcularCosto cls (blLoop cls fuel vars costo)) =
          (blLoop cls fuel vars costo,
            calcularCosto cls (blLoop cls fuel vars costo), false) := by
  intro fuel
  induction fuel with
  | zero => intro vars costo _ _ hlt; omega
  | succ fuel ih =>
    intro vars costo h hcosto hlt
    cases hm : (scanCandidatos cls (candidatos cls vars) vars costo).2.2 with
    | true =>
      obtain ⟨h1, h2, h3⟩ :=
        scanCandidatos_true cls (candidatos cls vars) vars costo h hm
      rw [blLoop_succ_true cls fuel vars costo hm]
      exact ih _ _ h1 h2 (by omega)
    | false =>
      have hs := scanCandidatos_false cls vars h (candidatos cls vars) costo hm
      rw [blLoop_succ_false cls fuel vars costo hm, hs]
      rw [hcosto] at hs
      exact ⟨h, hs⟩

/-- A hill-climbing run started at a scan fixpoint returns its input
unchanged. -/
lemma busquedaLocal_of_scan_false (cls : List (List Int)) (w : List TBool)
    (hs : scanCandidatos cls (candidatos cls w) w (calcularCosto cls w) =
      (w, calcularCosto cls w, false)) :
    busquedaLocal cls w = w := by
  unfold busquedaLocal
  rw [blLoop_succ_false cls (calcularCosto cls w) w (calcularCosto cls w)
    (by rw [hs]), hs]

/-- C5 counterexample: on the assignment `[False, Unknown]` for the formula
with clauses `(¬x1 ∨ ¬x2)`, `(x1)`, `(¬x2)`, the first hill-climbing run
returns `[False, False]` (the rejected exploratory flips turn the
`Unknown` entry into `False`), and a second run on that output moves on to
`[True, False]` — `busquedaLocal` is not idempotent on arbitrary
assignments. -/
theorem C5_idempotence_cex :
    busquedaLocal [[-1, -2], [1], [-2]]
        (busquedaLocal [[-1, -2], [1], [-2]] [TBool.False, TBool.Unknown]) ≠
      busquedaLocal [[-1, -2], [1], [-2]] [TBool.False, TBool.Unknown] := by
  decide

/-- C5 (amended): on every fully determined assignment (no `Unknown`
entry) `busquedaLocal` is idempotent: at termination no candidate
single-variable flip strictly decreases the cost, so re-running it on its
own output returns that output unchanged. -/
theorem C5_amended_idempotent_on_determined (cls : List (List Int))
    (vars : List TBool) (h : noUnknown vars = true) :
    busquedaLocal cls (busquedaLocal cls vars) = busquedaLocal cls vars := by
  obtain ⟨hN, hscan⟩ := blLoop_fix cls (calcularCosto cls vars + 1) vars
    (calcularCosto cls vars) h rfl (Nat.lt_succ_self _)
  exact busquedaLocal_of_scan_false cls _ hscan

/-- Witness for the amended C5 on a concrete determined assignment. -/
theorem C5_witness :
    noUnknown [TBool.False] = true ∧
      busquedaLocal [[1]] (busquedaLocal [[1]] [TBool.False]) =
        busquedaLocal [[1]] [TBool.False] :=
  ⟨by decide, C5_amended_idempotent_on_determined [[1]] [TBool.False] (by decide)⟩

/-! ## The effect of rejected exploratory flips on Unknown entries

A rejected exploratory move flips the same position twice.  A `True` or
`False` entry is restored exactly, but an `Unknown` entry becomes `True`
and then `False`.  The relation `ufR`/`ufRel` captures this drift; the key
fact is that an `Unknown`-to-`False` transition can newly satisfy clauses
but never unsatisfy one, so it never increases the cost. -/

/-- How one entry can change under a double flip: unchanged, or `Unknown`
turned into `False`. -/
def ufR (x y : TBool) : Prop :=
  x = y ∨ (x = TBool.Unknown ∧ y = TBool.False)

lemma ufR_refl (x : TBool) : ufR x x := Or.inl rfl

lemma ufR_trans {x y z : TBool} (h1 : ufR x y) (h2 : ufR y z) : ufR x z := by
  rcases h1 with h1 | ⟨hx, hy⟩
  · rw [h1]; exact h2
  · rcases h2 with h2 | ⟨hy', hz⟩
    · rw [← h2]; exact Or.inr ⟨hx, hy⟩
    · rw [hy] at hy'
      cases hy'

/-- Pointwise double-flip drift between assignment vectors. -/
def ufRel (a b : List TBool) : Prop :=
  List.Forall₂ ufR a b

lemma ufRel_refl (a : List TBool) : ufRel a a := by
  induction a with
  | nil => exact List.Forall₂.nil
  | cons x xs ih => exact List.Forall₂.cons (ufR_refl x) ih

lemma ufRel_trans {a b c : List TBool} (h1 : ufRel a b) (h2 : ufRel b c) :
    ufRel a c := by
  induction h1 generalizing c with
  | nil => cases h2; exact List.Forall₂.nil
  | cons hxy _ ih =>
    cases h2 with
    | cons hyz h2' => exact List.Forall₂.cons (ufR_trans hxy hyz) (ih h2')

lemma ufRel_getD {a b : List TBool} (h : ufRel a b) (i : Nat) :
    ufR (a.getD i TBool.Unknown) (b.getD i TBool.Unknown) := by
  induction h generalizing i with
  | nil => exact ufR_refl _
  | cons hxy _ ih =>
    cases i with
    | zero => exact hxy
    | succ i => exact ih i

lemma ufR_flipv {x y : TBool} (h : ufR x y) : flipv x = flipv y := by
  rcases h with h | ⟨hx, hy⟩
  · rw [h]
  · rw [hx, hy]
    rfl

lemma ufRel_set {a b : List TBool} (h : ufRel a b) :
    ∀ (i : Nat) {x y : TBool}, ufR x y → ufRel (a.set i x) (b.set i y) := by
  induction h with
  | nil => intro i x y _; exact List.Forall₂.nil
  | cons hab htail ih =>
    intro i x y hxy
    cases i with
    | zero => exact List.Forall₂.cons hxy htail
    | succ i => exact List.Forall₂.cons hab (ih i hxy)

lemma ufRel_flipIdx {a b : List TBool} (h : ufRel a b) (i : Nat) :
    ufRel (flipIdx i a) (flipIdx i b) := by
  unfold flipIdx
  rw [ufR_flipv (ufRel_getD h i)]
  exact ufRel_set h i (ufR_refl _)

lemma ufRel_doubleFlip : ∀ (a : List TBool) (i : Nat),
    ufRel a (flipIdx i (flipIdx i a))
  | [], _ => List.Forall₂.nil
  | x :: xs, 0 => by
    have h : flipIdx 0 (flipIdx 0 (x :: xs)) = flipv (flipv x) :: xs := rfl
    rw [h]
    refine List.Forall₂.cons ?_ (ufRel_refl xs)
    cases x with
    | Unknown => exact Or.inr ⟨rfl, rfl⟩
    | False => exact Or.inl rfl
    | True => exact Or.inl rfl
  | x :: xs, i + 1 => by
    have h : flipIdx (i + 1) (flipIdx (i + 1) (x :: xs)) =
        x :: flipIdx i (flipIdx i xs) := rfl
    rw [h]
    exact List.Forall₂.cons (ufR_refl x) (ufRel_doubleFlip xs i)

lemma litSat_ufRel {a b : List TBool} (h : ufRel a b) (v : Int)
    (hs : litSat a v = true) : litSat b v = true := by
  unfold litSat at hs ⊢
  rcases ufRel_getD h (v.natAbs - 1) with heq | ⟨hU, hF⟩
  · rw [← heq]
    exact hs
  · rw [hU] at hs
    simp at hs

lemma esSatisfecha_ufRel {a b : List TBool} (h : ufRel a b) (c : List Int)
    (hs : esSatisfecha c a = true) : esSatisfecha c b = true := by
  unfold esSatisfecha at hs ⊢
  simp only [List.any_eq_true] at hs ⊢
  obtain ⟨v, hv, hsat⟩ := hs
  exact ⟨v, hv, litSat_ufRel h v hsat⟩

/-- An `Unknown`-to-`False` drift never increases the cost. -/
lemma calcularCosto_ufRel {a b : List TBool} (h : ufRel a b)
    (cls : List (List Int)) : calcularCosto cls b ≤ calcularCosto cls a := by
  unfold calcularCosto
  induction cls with
  | nil => exact le_refl 0
  | cons c rest ih =>
    simp only [List.countP_cons]
    have hcb : (if (!esSatisfecha c b) = true then 1 else 0) ≤
        (if (!esSatisfecha c a) = true then 1 else 0) := by
      by_cases hb : esSatisfecha c b = true
      · simp [hb]
      · have ha : esSatisfecha c a = false := by
          cases hsa : esSatisfecha c a
          · rfl
          · exact absurd (esSatisfecha_ufRel h c hsa) hb
        have hb' : esSatisfecha c b = false := Bool.eq_false_iff.mpr hb
        simp [ha, hb']
    omega

/-! ## Cost of the all-Unknown assignment -/

lemma getD_replicate (n : Nat) :
    ∀ i : Nat, (List.replicate n TBool.Unknown).getD i TBool.Unknown =
      TBool.Unknown := by
  induction n with
  | zero => intro i; rfl
  | succ n ih =>
    intro i
    cases i with
    | zero => rfl
    | succ i => exact ih i

lemma esSatisfecha_replicate (c : List Int) (n : Nat) :
    esSatisfecha c (List.replicate n TBool.Unknown) = false := by
  induction c with
  | nil => rfl
  | cons v rest ih =>
    unfold esSatisfecha at ih ⊢
    simp only [List.any_cons, ih, Bool.or_false]
    unfold litSat
    rw [getD_replicate]
    simp

/-- Every clause is unsatisfied under the all-`Unknown` assignment, so its
cost is the full clause count. -/
lemma calcularCosto_replicate_unknown (cls : List (List Int)) (n : Nat) :
    calcularCosto cls (List.replicate n TBool.Unknown) = cls.length := by
  unfold calcularCosto
  rw [List.countP_eq_length]
  intro c _
  rw [esSatisfecha_replicate]
  rfl

/-! ## Best-so-far invariants of ILS, SA and GRASP -/

lemma ilsLoop_spec (cls : List (List Int)) (n : Nat) (gen : Nat → Nat)
    (kf : Nat) :
    ∀ (k t : Nat) (best : List TBool × Nat),
      best.2 = calcularCosto cls best.1 →
      (ilsLoop cls n gen kf k t best).2 =
          calcularCosto cls (ilsLoop cls n gen kf k t best).1 ∧
        (ilsLoop cls n gen kf k t best).2 ≤ best.2 := by
  intro k
  induction k with
  | zero => intro t best h; exact ⟨h, le_refl _⟩
  | succ k ih =>
    intro t best h
    simp only [ilsLoop]
    split
    case isTrue hlt =>
      obtain ⟨h1, h2⟩ := ih (t + kf)
        (busquedaLocal cls (perturbar n gen t kf best.1),
          calcularCosto cls (busquedaLocal cls (perturbar n gen t kf best.1))) rfl
      exact ⟨h1, le_trans h2 (le_of_lt hlt)⟩
    case isFalse =>
      exact ih (t + kf) best h

lemma saInnerStep_spec (cls : List (List Int)) (n : Nat) (st : SAState)
    (ridx : Nat) (dec : Bool)
    (h : st.mejorCosto = calcularCosto cls st.mejorSol) :
    (saInnerStep cls n st ridx dec).mejorCosto =
        calcularCosto cls (saInnerStep cls n st ridx dec).mejorSol ∧
      (saInnerStep cls n st ridx dec).mejorCosto ≤ st.mejorCosto := by
  unfold saInnerStep
  dsimp only
  split_ifs with h1 h2 h3
  · exact ⟨rfl, le_of_lt h2⟩
  · exact ⟨h, le_refl _⟩
  · exact ⟨h, le_refl _⟩
  · exact ⟨h, le_refl _⟩

lemma saInner_spec (cls : List (List Int)) (n : Nat) (igen : Nat → Nat)
    (dgen : Nat → Bool) :
    ∀ (k t : Nat) (st : SAState),
      st.mejorCosto = calcularCosto cls st.mejorSol →
      (saInner cls n igen dgen k t st).1.mejorCosto =
          calcularCosto cls (saInner cls n igen dgen k t st).1.mejorSol ∧
        (saInner cls n igen dgen k t st).1.mejorCosto ≤ st.mejorCosto := by
  intro k
  induction k with
  | zero => intro t st h; exact ⟨h, le_refl _⟩
  | succ k ih =>
    intro t st h
    have hstep := saInnerStep_spec cls n st (igen t) (dgen t) h
    obtain ⟨h1, h2⟩ := ih (t + 1) _ hstep.1
    exact ⟨h1, le_trans h2 hstep.2⟩

lemma saLoop_spec (cls : List (List Int)) (n : Nat) (igen : Nat → Nat)
    (dgen : Nat → Bool) (iterPT : Nat) (alpha : ℚ) :
    ∀ (fuel : Nat) (T : ℚ) (t : Nat) (st : SAState),
      st.mejorCosto = calcularCosto cls st.mejorSol →
      (saLoop cls n igen dgen iterPT alpha fuel T t st).mejorCosto =
          calcularCosto cls
            (saLoop cls n igen dgen iterPT alpha fuel T t st).mejorSol ∧
        (saLoop cls n igen dgen iterPT alpha fuel T t st).mejorCosto ≤
          st.mejorCosto := by
  intro fuel
  induction fuel with
  | zero => intro T t st h; exact ⟨h, le_refl _⟩
  | succ fuel ih =>
    intro T t st h
    simp only [saLoop]
    split
    case isTrue hT =>
      obtain ⟨hi1, hi2⟩ := saInner_spec cls n igen dgen iterPT t st h
      obtain ⟨h1, h2⟩ := ih (T * alpha) _ _ hi1
      exact ⟨h1, le_trans h2 hi2⟩
    case isFalse =>
      exact ⟨h, le_refl _⟩

lemma graspLoop_le (cls : List (List Int)) (nvars : Nat) (alpha : ℚ)
    (rgen : Nat → Nat) (frecs : List Conteo) :
    ∀ (k t : Nat) (mc : Int) (ms : List TBool),
      calcularCosto cls ms ≤ cls.length →
      calcularCosto cls (graspLoop cls nvars alpha rgen frecs k t mc ms) ≤
        cls.length := by
  intro k
  induction k with
  | zero => intro t mc ms h; exact h
  | succ k ih =>
    intro t mc ms h
    simp only [graspLoop]
    split
    · apply ih
      unfold calcularCosto
      exact List.countP_le_length _
    · exact ih _ _ _ h

/-! ## The tabu neighbourhood scan -/

lemma tabuScan_cons_true (cls : List (List Int)) (mg ca : Int) (tu : List Int)
    (iter : Nat) (i : Nat) (rest : List Nat) (vars : List TBool) (md : Int)
    (mi : Option Nat)
    (hc : (tabuEligible iter (tu.getD i 0) (calcularCosto cls (flipIdx i vars) : Int) mg &&
        decide ((calcularCosto cls (flipIdx i vars) : Int) - ca < md)) = true) :
    tabuScan cls mg ca tu iter (i :: rest) vars md mi =
      tabuScan cls mg ca tu iter rest (flipIdx i (flipIdx i vars))
        ((calcularCosto cls (flipIdx i vars) : Int) - ca) (some i) := by
  simp only [tabuScan]
  rw [hc]
  simp

lemma tabuScan_cons_false (cls : List (List Int)) (mg ca : Int) (tu : List Int)
    (iter : Nat) (i : Nat) (rest : List Nat) (vars : List TBool) (md : Int)
    (mi : Option Nat)
    (hc : (tabuEligible iter (tu.getD i 0) (calcularCosto cls (flipIdx i vars) : Int) mg &&
        decide ((calcularCosto cls (flipIdx i vars) : Int) - ca < md)) = false) :
    tabuScan cls mg ca tu iter (i :: rest) vars md mi =
      tabuScan cls mg ca tu iter rest (flipIdx i (flipIdx i vars)) md mi := by
  simp only [tabuScan]
  rw [hc]
  simp

/-- What the tabu neighbourhood scan guarantees on an arbitrary (possibly
partially `Unknown`) assignment: the scanned vector only drifts by
`Unknown`-to-`False` transitions, and whenever a move `(m, delta)` is
selected there is a drift-predecessor `w` of the final scanned vector with
`cost(flip m w) = costoActual + delta` exactly. -/
lemma tabuScan_spec (cls : List (List Int)) (mg ca : Int) (tu : List Int)
    (iter : Nat) :
    ∀ (is : List Nat) (vars : List TBool) (md : Int) (mi : Option Nat),
      (∀ m, mi = some m → ∃ w, ufRel w vars ∧
        (calcularCosto cls (flipIdx m w) : Int) = ca + md) →
      ufRel vars (tabuScan cls mg ca tu iter is vars md mi).1 ∧
        ∀ m, (tabuScan cls mg ca tu iter is vars md mi).2.2 = some m →
          ∃ w, ufRel w (tabuScan cls mg ca tu iter is vars md mi).1 ∧
            (calcularCosto cls (flipIdx m w) : Int) =
              ca + (tabuScan cls mg ca tu iter is vars md mi).2.1 := by
  intro is
  induction is with
  | nil => intro vars md mi hacc; exact ⟨ufRel_refl vars, hacc⟩
  | cons i rest ih =>
    intro vars md mi hacc
    by_cases hc : (tabuEligible iter (tu.getD i 0)
        (calcularCosto cls (flipIdx i vars) : Int) mg &&
        decide ((calcularCosto cls (flipIdx i vars) : Int) - ca < md)) = true
    · rw [tabuScan_cons_true cls mg ca tu iter i rest vars md mi hc]
      have hacc' : ∀ m, (some i : Option Nat) = some m → ∃ w,
          ufRel w (flipIdx i (flipIdx i vars)) ∧
            (calcularCosto cls (flipIdx m w) : Int) =
              ca + ((calcularCosto cls (flipIdx i vars) : Int) - ca) := by
        intro m hm
        obtain rfl : i = m := Option.some.inj hm
        exact ⟨vars, ufRel_doubleFlip vars i, by ring⟩
      obtain ⟨h1, h2⟩ := ih (flipIdx i (flipIdx i vars)) _ _ hacc'
      exact ⟨ufRel_trans (ufRel_doubleFlip vars i) h1, h2⟩
    · have hc' := Bool.eq_false_iff.mpr hc
      rw [tabuScan_cons_false cls mg ca tu iter i rest vars md mi hc']
      have hacc' : ∀ m, mi = some m → ∃ w,
          ufRel w (flipIdx i (flipIdx i vars)) ∧
            (calcularCosto cls (flipIdx m w) : Int) = ca + md := by
        intro m hm
        obtain ⟨w, hw, hcw⟩ := hacc m hm
        exact ⟨w, ufRel_trans hw (ufRel_doubleFlip vars i), hcw⟩
      obtain ⟨h1, h2⟩ := ih (flipIdx i (flipIdx i vars)) md mi hacc'
      exact ⟨ufRel_trans (ufRel_doubleFlip vars i) h1, h2⟩

/-- One tabu iteration never lets the true cost of the incumbent exceed the
running cost, keeps the global best's true cost below its recorded cost,
and never increases the recorded best cost. -/
lemma tabuIter_spec (cls : List (List Int)) (n : Nat) (tb : Int)
    (tgen : Nat → Nat) (iter : Nat) (st : TabuState)
    (h1 : (calcularCosto cls st.vars : Int) ≤ st.costo)
    (h2 : (calcularCosto cls st.mejorSol : Int) ≤ st.mejorCosto) :
    (calcularCosto cls (tabuIter cls n tb tgen iter st).vars : Int) ≤
        (tabuIter cls n tb tgen iter st).costo ∧
      (calcularCosto cls (tabuIter cls n tb tgen iter st).mejorSol : Int) ≤
        (tabuIter cls n tb tgen iter st).mejorCosto ∧
      (tabuIter cls n tb tgen iter st).mejorCosto ≤ st.mejorCosto := by
  obtain ⟨hrel, hsel⟩ := tabuScan_spec cls st.mejorCosto st.costo st.tabuUntil
    iter (List.range n) st.vars (10 ^ 9) none (fun m hm => by cases hm)
  simp only [tabuIter]
  cases hmi : (tabuScan cls st.mejorCosto st.costo st.tabuUntil iter
      (List.range n) st.vars (10 ^ 9) none).2.2 with
  | none =>
    refine ⟨?_, h2, le_refl _⟩
    exact le_trans (Nat.cast_le.mpr (calcularCosto_ufRel hrel cls)) h1
  | some m =>
    obtain ⟨w, hw, hcw⟩ := hsel m hmi
    have hv2 : (calcularCosto cls (flipIdx m
        (tabuScan cls st.mejorCosto st.costo st.tabuUntil iter
          (List.range n) st.vars (10 ^ 9) none).1) : Int) ≤
        st.costo + (tabuScan cls st.mejorCosto st.costo st.tabuUntil iter
          (List.range n) st.vars (10 ^ 9) none).2.1 := by
      rw [← hcw]
      exact Nat.cast_le.mpr (calcularCosto_ufRel (ufRel_flipIdx hw m) cls)
    dsimp only
    split
    case isTrue hlt => exact ⟨hv2, hv2, le_of_lt hlt⟩
    case isFalse => exact ⟨hv2, h2, le_refl _⟩

lemma tabuLoop_spec (cls : List (List Int)) (n : Nat) (tb : Int)
    (tgen : Nat → Nat) :
    ∀ (k iter : Nat) (st : TabuState),
      (calcularCosto cls st.vars : Int) ≤ st.costo →
      (calcularCosto cls st.mejorSol : Int) ≤ st.mejorCosto →
      (calcularCosto cls (tabuLoop cls n tb tgen k iter st).mejorSol : Int) ≤
          (tabuLoop cls n tb tgen k iter st).mejorCosto ∧
        (tabuLoop cls n tb tgen k iter st).mejorCosto ≤ st.mejorCosto := by
  intro k
  induction k with
  | zero => intro iter st _ h2; exact ⟨h2, le_refl _⟩
  | succ k ih =>
    intro iter st h1 h2
    have hit := tabuIter_spec cls n tb tgen iter st h1 h2
    obtain ⟨ha, hb⟩ := ih (iter + 1) (tabuIter cls n tb tgen iter st)
      hit.1 hit.2.1
    exact ⟨ha, le_trans hb hit.2.2⟩

/-! ## C1 -/

/-- C1 counterexample: `busquedaGRASP` ignores its starting assignment and,
with a zero iteration budget, returns its initial best (the empty vector),
so on the satisfiable formula `(x1)` with starting assignment `[True]` of
cost `0` it returns an assignment of cost `1` — strictly worse than its
start. -/
theorem C1_grasp_cex :
    calcularCosto [[1]] [TBool.True] <
      calcularCosto [[1]]
        (busquedaGRASP [[1]] [TBool.True] 0 0 (fun _ => 0) [⟨1, 0⟩]) := by
  decide

/-- C1 (amended): for every starting assignment, iteration budget and
random source, `busquedaLocalIterada`, `busquedaTabu` and
`recocidoSimulado` return an assignment whose cost does not exceed the
starting assignment's cost.  `busquedaGRASP` rebuilds from scratch and
ignores its starting vector, so for it the same bound holds whenever the
starting vector is all-`Unknown` (as the driver supplies), whose cost is
the full clause count. -/
theorem C1_amended_never_worse (cls : List (List Int)) (vars : List TBool)
    (maxIterILS maxIterTabu maxIterGRASP n : Nat)
    (genILS tgen rgen igen : Nat → Nat) (dgen : Nat → Bool)
    (tenureBase : Int) (tempInicial alphaSA alphaGRASP : ℚ)
    (iterPorTemp fuel : Nat) (frecs : List Conteo) :
    calcularCosto cls (busquedaLocalIterada cls vars maxIterILS genILS) ≤
        calcularCosto cls vars ∧
      calcularCosto cls (busquedaTabu cls vars maxIterTabu tenureBase tgen) ≤
        calcularCosto cls vars ∧
      calcularCosto cls (recocidoSimulado cls vars igen dgen tempInicial
          alphaSA iterPorTemp fuel) ≤ calcularCosto cls vars ∧
      calcularCosto cls (busquedaGRASP cls (List.replicate n TBool.Unknown)
          maxIterGRASP alphaGRASP rgen frecs) ≤
        calcularCosto cls (List.replicate n TBool.Unknown) := by
  refine ⟨?_, ?_, ?_, ?_⟩
  · unfold busquedaLocalIterada
    obtain ⟨h1, h2⟩ := ilsLoop_spec cls vars.length genILS (kPerturb vars.length)
      maxIterILS 0 (vars, calcularCosto cls vars) rfl
    rw [← h1]
    exact h2
  · unfold busquedaTabu
    obtain ⟨ha, hb⟩ := tabuLoop_spec cls vars.length tenureBase tgen maxIterTabu 1
      (tabuInicial cls vars) (le_refl _) (le_refl _)
    have h' : (calcularCosto cls (tabuLoop cls vars.length tenureBase tgen
        maxIterTabu 1 (tabuInicial cls vars)).mejorSol : Int) ≤
        (calcularCosto cls vars : Int) := le_trans ha hb
    exact_mod_cast h'
  · unfold recocidoSimulado
    obtain ⟨h1, h2⟩ := saLoop_spec cls vars.length igen dgen iterPorTemp alphaSA
      fuel tempInicial 0
      ⟨vars, calcularCosto cls vars, calcularCosto cls vars, vars⟩ rfl
    rw [← h1]
    exact h2
  · unfold busquedaGRASP
    rw [calcularCosto_replicate_unknown]
    apply graspLoop_le
    unfold calcularCosto
    exact List.countP_le_length _

/-! ## C10 -/

/-- On a fully determined assignment the scan's double flips are exact
reverts, so the scanned vector is returned unchanged and a selected move's
delta is exactly the flipped cost minus the running cost. -/
lemma tabuScan_bool (cls : List (List Int)) (mg ca : Int) (tu : List Int)
    (iter : Nat) :
    ∀ (is : List Nat) (vars : List TBool) (md : Int) (mi : Option Nat),
      noUnknown vars = true →
      (∀ m, mi = some m →
        ca + md = (calcularCosto cls (flipIdx m vars) : Int)) →
      (tabuScan cls mg ca tu iter is vars md mi).1 = vars ∧
        ∀ m, (tabuScan cls mg ca tu iter is vars md mi).2.2 = some m →
          ca + (tabuScan cls mg ca tu iter is vars md mi).2.1 =
            (calcularCosto cls (flipIdx m vars) : Int) := by
  intro is
  induction is with
  | nil => intro vars md mi _ hacc; exact ⟨rfl, hacc⟩
  | cons i rest ih =>
    intro vars md mi h hacc
    have hff : flipIdx i (flipIdx i vars) = vars := flipIdx_flipIdx vars i h
    by_cases hc : (tabuEligible iter (tu.getD i 0)
        (calcularCosto cls (flipIdx i vars) : Int) mg &&
        decide ((calcularCosto cls (flipIdx i vars) : Int) - ca < md)) = true
    · rw [tabuScan_cons_true cls mg ca tu iter i rest vars md mi hc, hff]
      apply ih vars _ _ h
      intro m hm
      obtain rfl : i = m := Option.some.inj hm
      ring
    · have hc' := Bool.eq_false_iff.mpr hc
      rw [tabuScan_cons_false cls mg ca tu iter i rest vars md mi hc', hff]
      exact ih vars md mi h hacc

lemma tabuIter_bool (cls : List (List Int)) (n : Nat) (tb : Int)
    (tgen : Nat → Nat) (iter : Nat) (st : TabuState)
    (h : noUnknown st.vars = true)
    (hcost : st.costo = (calcularCosto cls st.vars : Int)) :
    noUnknown (tabuIter cls n tb tgen iter st).vars = true ∧
      (tabuIter cls n tb tgen iter st).costo =
        (calcularCosto cls (tabuIter cls n tb tgen iter st).vars : Int) := by
  obtain ⟨hv, hsel⟩ := tabuScan_bool cls st.mejorCosto st.costo st.tabuUntil
    iter (List.range n) st.vars (10 ^ 9) none h (fun m hm => by cases hm)
  simp only [tabuIter]
  cases hmi : (tabuScan cls st.mejorCosto st.costo st.tabuUntil iter
      (List.range n) st.vars (10 ^ 9) none).2.2 with
  | none =>
    rw [hv]
    exact ⟨h, hcost⟩
  | some m =>
    have hm := hsel m hmi
    dsimp only
    split
    case isTrue =>
      rw [hv]
      exact ⟨noUnknown_flipIdx st.vars m h, hm⟩
    case isFalse =>
      rw [hv]
      exact ⟨noUnknown_flipIdx st.vars m h, hm⟩

lemma tabuLoop_bool (cls : List (List Int)) (n : Nat) (tb : Int)
    (tgen : Nat → Nat) :
    ∀ (k iter : Nat) (st : TabuState),
      noUnknown st.vars = true →
      st.costo = (calcularCosto cls st.vars : Int) →
      noUnknown (tabuLoop cls n tb tgen k iter st).vars = true ∧
        (tabuLoop cls n tb tgen k iter st).costo =
          (calcularCosto cls (tabuLoop cls n tb tgen k iter st).vars : Int) := by
  intro k
  induction k with
  | zero => intro iter st h hc; exact ⟨h, hc⟩
  | succ k ih =>
    intro iter st h hc
    have hit := tabuIter_bool cls n tb tgen iter st h hc
    exact ih (iter + 1) (tabuIter cls n tb tgen iter st) hit.1 hit.2

/-- C10 counterexample: starting `busquedaTabu` from the partially
`Unknown` assignment `[False, Unknown]` on the clauses `(¬x2)`, `(x1)`,
after one iteration the running cost is `1` while the current assignment
`[True, False]` has true cost `0` — the scan's double flip turned the
`Unknown` entry into `False` behind the running cost's back. -/
theorem C10_incremental_cost_cex :
    (tabuLoop [[-2], [1]] 2 0 (fun _ => 0) 1 1
        (tabuInicial [[-2], [1]] [TBool.False, TBool.Unknown])).costo ≠
      (calcularCosto [[-2], [1]]
        (tabuLoop [[-2], [1]] 2 0 (fun _ => 0) 1 1
          (tabuInicial [[-2], [1]] [TBool.False, TBool.Unknown])).vars : Int) := by
  decide

/-- C10 (amended): when `busquedaTabu` starts from a fully determined
assignment (no `Unknown` entry, as the driver's constructive phase
guarantees), then after every number of completed iterations — i.e. at the
start of every iteration — the running cost variable, updated only by
adding the chosen move's delta, equals `calcularCosto` of the current
assignment, so best-global updates compare true costs. -/
theorem C10_amended_incremental_cost (cls : List (List Int))
    (vars : List TBool) (tb : Int) (tgen : Nat → Nat) (k : Nat)
    (h : noUnknown vars = true) :
    (tabuLoop cls vars.length tb tgen k 1 (tabuInicial cls vars)).costo =
      (calcularCosto cls
        (tabuLoop cls vars.length tb tgen k 1 (tabuInicial cls vars)).vars : Int) :=
  (tabuLoop_bool cls vars.length tb tgen k 1 (tabuInicial cls vars) h rfl).2

/-- Witness for the amended C10 on a concrete determined assignment. -/
theorem C10_witness :
    noUnknown [TBool.False] = true ∧
      (tabuLoop [[1]] 1 0 (fun _ => 0) 1 1
          (tabuInicial [[1]] [TBool.False])).costo =
        (calcularCosto [[1]]
          (tabuLoop [[1]] 1 0 (fun _ => 0) 1 1
            (tabuInicial [[1]] [TBool.False])).vars : Int) :=
  ⟨by decide,
    C10_amended_incremental_cost [[1]] [TBool.False] 0 (fun _ => 0) 1 (by decide)⟩

end MaxSAT
